import Mathlib

/-!
Verification of the timesheet repository's attendance aggregation,
live-status composition, report rendering helpers and clock-in/out
state machine, as a shallow embedding of the Rust sources.

Conventions of the embedding:
* UTC instants are integers counting seconds since the Unix epoch
  (chrono DateTime of Utc at second granularity, which is what the
  sources store and compare).
* The display timezone (chrono_tz America::Santiago in the sources) is
  an environment parameter tz mapping an instant to its UTC offset in
  seconds; every theorem is universally quantified over it, so it holds
  for the actual Santiago offset table in particular.
* Calendar dates (chrono NaiveDate) are year/month/day records; the
  conversion between instants and civil dates uses the standard
  proleptic-Gregorian algorithms, the same calendar chrono implements.
* Rust i64 arithmetic stays far from overflow on all inputs considered
  here, so integers are modelled as unbounded Int.
-/

/-- A civil calendar date, the embedding of chrono NaiveDate. -/
structure Date where
  year : Int
  month : Nat
  day : Nat
deriving DecidableEq, Repr

/-- Calendar order on dates, the Ord instance of chrono NaiveDate
(lexicographic on year, month, day). -/
def dle (a b : Date) : Prop :=
  a.year < b.year ∨ (a.year = b.year ∧
    (a.month < b.month ∨ (a.month = b.month ∧ a.day ≤ b.day)))

/-- Strict calendar order on dates. -/
def dlt (a b : Date) : Prop :=
  a.year < b.year ∨ (a.year = b.year ∧
    (a.month < b.month ∨ (a.month = b.month ∧ a.day < b.day)))

instance (a b : Date) : Decidable (dle a b) := by unfold dle; infer_instance

instance (a b : Date) : Decidable (dlt a b) := by unfold dlt; infer_instance

/-- Rust Ord::min on NaiveDate: the smaller date, the left one on ties. -/
def dmin (a b : Date) : Date := if dle a b then a else b

/-- Gregorian leap-year test. -/
def isLeap (y : Int) : Bool :=
  (y.emod 4 == 0 && !(y.emod 100 == 0)) || y.emod 400 == 0

/-- Number of days of a month of the Gregorian calendar. -/
def daysInMonth (y : Int) (m : Nat) : Nat :=
  if m = 1 then 31
  else if m = 2 then (if isLeap y then 29 else 28)
  else if m = 3 then 31
  else if m = 4 then 30
  else if m = 5 then 31
  else if m = 6 then 30
  else if m = 7 then 31
  else if m = 8 then 31
  else if m = 9 then 30
  else if m = 10 then 31
  else if m = 11 then 30
  else if m = 12 then 31
  else 0

/-- The next calendar day (chrono NaiveDate plus one day). -/
def succDay : Date → Date
  | ⟨y, m, d⟩ =>
    if d < daysInMonth y m then ⟨y, m, d + 1⟩
    else if m < 12 then ⟨y, m + 1, 1⟩
    else ⟨y + 1, 1, 1⟩

/-- Adding n days to a date (chrono Duration::days). -/
def addDays : Nat → Date → Date
  | 0, t => t
  | n + 1, t => addDays n (succDay t)

/-- Days from the Unix epoch to a civil date, the standard
days-from-civil algorithm of the proleptic Gregorian calendar. -/
def daysFromCivil (y : Int) (m : Nat) (d : Nat) : Int :=
  let yAdj : Int := if m ≤ 2 then y - 1 else y
  let era : Int := Int.fdiv yAdj 400
  let yoe : Nat := (yAdj - era * 400).toNat
  let mp : Nat := if 3 ≤ m then m - 3 else m + 9
  let doy : Nat := (153 * mp + 2) / 5 + d - 1
  let doe : Nat := yoe * 365 + yoe / 4 - yoe / 100 + doy
  era * 146097 + (doe : Int) - 719468

/-- Civil date of a day count from the Unix epoch, the standard
civil-from-days algorithm (chrono date_naive of a timestamp). -/
def civilFromDays (z : Int) : Date :=
  let z1 : Int := z + 719468
  let era : Int := Int.fdiv z1 146097
  let doe : Nat := (z1 - era * 146097).toNat
  let yoe : Nat := (doe - doe / 1460 + doe / 36524 - doe / 146096) / 365
  let doy : Nat := doe - (365 * yoe + yoe / 4 - yoe / 100)
  let mp : Nat := (5 * doy + 2) / 153
  let d : Nat := doy - (153 * mp + 2) / 5 + 1
  let m : Nat := if mp < 10 then mp + 3 else mp - 9
  ⟨era * 400 + (yoe : Int) + (if m ≤ 2 then 1 else 0), m, d⟩

/-- Weekday of a date, 0 for Monday through 6 for Sunday
(1970-01-01 was a Thursday, index 3). -/
def weekdayOf (t : Date) : Nat :=
  ((daysFromCivil t.year t.month t.day + 3).emod 7).toNat

/-- Embedding of weekday_name_es of src/reports.rs: localized Spanish
weekday names, indexed Monday first as in chrono Weekday. -/
def weekday_name_es (w : Nat) : String :=
  if w = 0 then "lunes"
  else if w = 1 then "martes"
  else if w = 2 then "miércoles"
  else if w = 3 then "jueves"
  else if w = 4 then "viernes"
  else if w = 5 then "sábado"
  else "domingo"

/-- Two-digit zero padding, the Rust format width 2 with zero fill for
nonnegative arguments. -/
def pad2 (n : Nat) : String := if n < 10 then "0" ++ toString n else toString n

/-- Rust format of an i64 with width 2 and zero fill. -/
def pad2Int (i : Int) : String :=
  if 0 ≤ i ∧ i < 10 then "0" ++ toString i else toString i

/-- Rendering of a second-of-day as HH:MM:SS, the chrono format string
for hours, minutes and seconds. -/
def fmtHMS (secs : Nat) : String :=
  pad2 (secs / 3600) ++ ":" ++ pad2 (secs % 3600 / 60) ++ ":" ++ pad2 (secs % 60)

/-- Local second-of-day of a UTC instant under offset map tz. -/
def localSecondOfDay (tz : Int → Int) (t : Int) : Nat :=
  ((t + tz t).emod 86400).toNat

/-- Local civil date of a UTC instant under offset map tz
(with_timezone followed by date_naive in the sources). -/
def localDate (tz : Int → Int) (t : Int) : Date :=
  civilFromDays (Int.fdiv (t + tz t) 86400)

/-- Embedding of db::TimesheetEntry: one attendance event. -/
structure TimesheetEntry where
  id : Int
  worker_id : Int
  clock_in : Int
  clock_out : Option Int
deriving DecidableEq, Repr

/-- Embedding of ReportRow of src/reports.rs. -/
structure ReportRow where
  date : Date
  clock_in : String
  clock_out : String
  duration_minutes : Int
  duration_label : String
  is_open : Bool
deriving DecidableEq, Repr

/-- Embedding of DayGroup of src/reports.rs. -/
structure DayGroup where
  date : Date
  weekday_name : String
  rows : List ReportRow
  is_weekend : Bool
deriving DecidableEq, Repr

/-- Embedding of WorkerRows of src/reports.rs. -/
structure WorkerRows where
  day_groups : List DayGroup
  total_minutes : Int
  has_open_sessions : Bool
deriving DecidableEq, Repr

/-- Embedding of format_duration of src/reports.rs: minutes rendered as
zero-padded HH:MM using Rust truncating division and remainder. -/
def format_duration (minutes : Int) : String :=
  pad2Int (Int.tdiv minutes 60) ++ ":" ++ pad2Int (Int.tmod minutes 60)

/-- Embedding of to_report_row of src/reports.rs. The parameter now is
the value the Utc::now() call inside the function returns, and tz is the
Santiago offset table; duration is whole minutes with truncation toward
zero (chrono num_minutes), floored at zero. -/
def to_report_row (tz : Int → Int) (now : Int) (entry : TimesheetEntry) : ReportRow :=
  let start_utc := entry.clock_in
  let end_utc := entry.clock_out.getD now
  let raw_minutes := Int.tdiv (end_utc - start_utc) 60
  let duration_minutes := if raw_minutes < 0 then 0 else raw_minutes
  let is_open := entry.clock_out.isNone
  { date := localDate tz start_utc
    clock_in := fmtHMS (localSecondOfDay tz start_utc)
    clock_out :=
      if is_open then fmtHMS (localSecondOfDay tz end_utc) ++ "*"
      else fmtHMS (localSecondOfDay tz end_utc)
    duration_minutes := duration_minutes
    duration_label := format_duration duration_minutes
    is_open := is_open }

/-- Byte-wise lexicographic comparison of strings as lists of
characters: the order Rust String cmp induces (the labels compared in
the sources are ASCII, where code-point order and byte order agree). -/
def lexLe : List Char → List Char → Bool
  | [], _ => true
  | _ :: _, [] => false
  | a :: as, b :: bs => if a = b then lexLe as bs else decide (a < b)

/-- Row comparison used by the sort_by call of build_rows: ascending by
the rendered clock-in label. -/
def clockInLe (a b : ReportRow) : Prop := lexLe a.clock_in.data b.clock_in.data = true

instance (a b : ReportRow) : Decidable (clockInLe a b) := by
  unfold clockInLe; infer_instance

/-- The placeholder row emitted for a day without events. -/
def placeholderRow (t : Date) : ReportRow :=
  { date := t
    clock_in := "--:--:--"
    clock_out := "--:--:--"
    duration_minutes := 0
    duration_label := format_duration 0
    is_open := false }

/-- One iteration body of the day loop of build_rows: the rows grouped
under a date (in event order, as the BTreeMap of the source returns
them), the placeholder when there are none, and a stable sort by
clock-in label otherwise. Rust sort_by is a stable sort, and every
stable sort for a total preorder computes the same list, so the
structural insertionSort is extensionally the embedding of it. -/
def dayRowsFor (rows : List ReportRow) (t : Date) : List ReportRow :=
  let dayRows := rows.filter (fun r => decide (r.date = t))
  if dayRows.isEmpty then [placeholderRow t]
  else List.insertionSort clockInLe dayRows

/-- The day group one loop iteration of build_rows emits. -/
def mkDayGroup (rows : List ReportRow) (t : Date) : DayGroup :=
  { date := t
    weekday_name := weekday_name_es (weekdayOf t)
    rows := dayRowsFor rows t
    is_weekend := decide (weekdayOf t = 6) }

/-- The day-walking while loop of build_rows. The source loop runs at
most 31 iterations because the month test fails once the day rolls past
the end of the month; the fuel argument is a bound on iterations that
the caller sets to 40, which the walk provably never exhausts. -/
def walkDays (rows : List ReportRow) (m0 : Nat) (endD : Date) : Nat → Date → List DayGroup
  | 0, _ => []
  | fuel + 1, current =>
    if dle current endD ∧ current.month = m0 then
      mkDayGroup rows current :: walkDays rows m0 endD fuel (succDay current)
    else []

/-- The day-group list build_rows produces: the walk starts at the
first of the month and ends at the selected date capped by thirty days
past the month start, exactly the end_date expression of the source. -/
def buildDayGroups (rows : List ReportRow) (y : Int) (m : Nat) (selected : Date) :
    List DayGroup :=
  walkDays rows m (dmin selected (addDays 30 ⟨y, m, 1⟩)) 40 ⟨y, m, 1⟩

/-- The running total of build_rows: the source adds each row's
duration while iterating the entries, guarded by the nonnegativity
test; the fold is that loop. -/
def buildTotalMinutes (rows : List ReportRow) : Int :=
  rows.foldl
    (fun acc r => if 0 ≤ r.duration_minutes then acc + r.duration_minutes else acc) 0

/-- Embedding of build_rows of src/reports.rs. The database fetch of the
month's entries is the input list; y and m are the parsed month key, so
the month start is the first of that month; now is the instant the
Utc::now() calls during this aggregation return. The source computes the
total, the open flag and the per-day grouping in one pass over the
entries; the three folds here compute the same three values. -/
def build_rows (tz : Int → Int) (now : Int) (entries : List TimesheetEntry)
    (y : Int) (m : Nat) (selected : Date) : WorkerRows :=
  let rows := entries.map (to_report_row tz now)
  { day_groups := buildDayGroups rows y m selected
    total_minutes := buildTotalMinutes rows
    has_open_sessions := rows.any (·.is_open) }

/-- The last day of a month. -/
def monthEnd (y : Int) (m : Nat) : Date := ⟨y, m, daysInMonth y m⟩

/-- Rust char is_ascii_alphanumeric: ASCII digits and letters. -/
def isAsciiAlphanumeric (c : Char) : Bool :=
  (decide ('0' ≤ c) && decide (c ≤ '9')) ||
  (decide ('A' ≤ c) && decide (c ≤ 'Z')) ||
  (decide ('a' ≤ c) && decide (c ≤ 'z'))

/-- Rust char is_ascii_whitespace: space, tab, newline, form feed,
carriage return. -/
def isAsciiWhitespaceChar (c : Char) : Bool :=
  c == ' ' || c == '\t' || c == '\n' || c == '\x0c' || c == '\r'

/-- Per-character action of sanitize_filename of src/reports.rs, with
the same three branches as the source (the two non-alphanumeric
branches both push an underscore). -/
def sanitizeChar (c : Char) : Char :=
  if isAsciiAlphanumeric c then c
  else if isAsciiWhitespaceChar c || c == '-' then '_'
  else '_'

/-- Embedding of sanitize_filename of src/reports.rs: one output
character per input character, then the fixed fallback when the result
is empty. -/
def sanitize_filename (name : String) : String :=
  let result := name.data.map sanitizeChar
  if result.isEmpty then "worker" else String.mk result

/-- Escape of one character by escape_html of src/reports.rs. The
characters written Char.ofNat 34 and Char.ofNat 39 are the double quote
and the apostrophe. -/
def escChar (c : Char) : List Char :=
  if c = '&' then ['&', 'a', 'm', 'p', ';']
  else if c = '<' then ['&', 'l', 't', ';']
  else if c = '>' then ['&', 'g', 't', ';']
  else if c = Char.ofNat 34 then ['&', 'q', 'u', 'o', 't', ';']
  else if c = Char.ofNat 39 then ['&', '#', '3', '9', ';']
  else [c]

/-- Character-list form of escape_html of src/reports.rs. -/
def escList : List Char → List Char
  | [] => []
  | c :: rest => escChar c ++ escList rest

/-- Embedding of escape_html of src/reports.rs. -/
def escape_html (value : String) : String := String.mk (escList value.data)

/-- Inverse reading of the five entities, used to state that escaping
is lossless: each entity is replaced by its character, any other
character is kept. -/
def unescapeHtml : List Char → List Char
  | [] => []
  | c :: rest =>
    if c = '&' then
      if rest.take 4 = ['a', 'm', 'p', ';'] then '&' :: unescapeHtml (rest.drop 4)
      else if rest.take 3 = ['l', 't', ';'] then '<' :: unescapeHtml (rest.drop 3)
      else if rest.take 3 = ['g', 't', ';'] then '>' :: unescapeHtml (rest.drop 3)
      else if rest.take 5 = ['q', 'u', 'o', 't', ';'] then Char.ofNat 34 :: unescapeHtml (rest.drop 5)
      else if rest.take 4 = ['#', '3', '9', ';'] then Char.ofNat 39 :: unescapeHtml (rest.drop 4)
      else c :: unescapeHtml rest
    else c :: unescapeHtml rest
termination_by l => l.length
decreasing_by all_goals simp <;> omega

/-- Checks that every ampersand of a character list begins one of the
five entities amp, lt, gt, quot, numeric 39. -/
def ampOkList : List Char → Bool
  | [] => true
  | c :: rest =>
    if c = '&' then
      if rest.take 4 = ['a', 'm', 'p', ';'] then ampOkList (rest.drop 4)
      else if rest.take 3 = ['l', 't', ';'] then ampOkList (rest.drop 3)
      else if rest.take 3 = ['g', 't', ';'] then ampOkList (rest.drop 3)
      else if rest.take 5 = ['q', 'u', 'o', 't', ';'] then ampOkList (rest.drop 5)
      else if rest.take 4 = ['#', '3', '9', ';'] then ampOkList (rest.drop 4)
      else false
    else ampOkList rest
termination_by l => l.length
decreasing_by all_goals simp <;> omega

/-- Date rendered with the chrono format month slash day, both
zero-padded. -/
def fmtMonthDay (t : Date) : String := pad2 t.month ++ "/" ++ pad2 t.day

/-- Row class of a day group in the HTML reports: alternating by day
index with a weekend marker class. -/
def htmlRowClass (index : Nat) (g : DayGroup) : String :=
  let base := if index % 2 == 0 then "day-even" else "day-odd"
  if g.is_weekend then base ++ " weekend" else base

/-- Table rows of one day group, as emitted by the per-day loop shared
by write_html_report and write_merged_html_report of src/reports.rs:
the first row carries the date cell with a rowspan over the day. -/
def htmlDayGroup (index : Nat) (g : DayGroup) : String :=
  let cls := htmlRowClass index g
  let rowspan := g.rows.length
  String.join (g.rows.enum.map (fun p =>
    "<tr class=\"" ++ cls ++ "\">" ++
    (if p.1 == 0 then
      "<td rowspan=\"" ++ toString rowspan ++ "\"><strong>" ++ fmtMonthDay g.date ++
      "</strong><br/><small>" ++ g.weekday_name ++ "</small></td>\n"
     else "") ++
    "<td>" ++ p.2.clock_in ++ "</td><td>" ++ p.2.clock_out ++ "</td><td>" ++
    p.2.duration_label ++ "</td></tr>\n"))

/-- The table body shared by both HTML reports: the no-data placeholder
row on an empty range, the day groups otherwise. -/
def htmlTableBody (day_groups : List DayGroup) : String :=
  "<table><thead><tr><th>Date</th><th>Clock In</th><th>Clock Out</th><th>Duration (HH:MM)</th></tr></thead><tbody>" ++
  (if day_groups.isEmpty then
    "<tr><td colspan=\"4\">No recorded sessions for this month.</td></tr>"
   else String.join (day_groups.enum.map (fun p => htmlDayGroup p.1 p.2))) ++
  "</tbody></table>"

/-- Total line of the HTML reports. -/
def htmlTotalLine (total_minutes : Int) : String :=
  "<p><strong>Total:</strong> " ++ format_duration total_minutes ++ " (" ++
  toString total_minutes ++ " minutes)</p>\n"

/-- Open-session footnote of the HTML reports. -/
def htmlOpenFootnote : String :=
  "<p>* Entries marked with an asterisk do not have a recorded clock out; the current time was used to compute the duration.</p>"

/-- Embedding of write_html_report of src/reports.rs as the byte
sequence it writes (the file write itself is outside the model). The
head line interpolates worker_name raw, while the h1 heading escapes
it; newlines mark the writeln calls of the source, and the characters
written with hexadecimal escapes 7b and 7d are the literal braces of
the inline stylesheet. -/
def write_html_report (worker_name month : String) (day_groups : List DayGroup)
    (total_minutes : Int) (has_open_sessions : Bool) : String :=
  "<!DOCTYPE html><html><head><meta charset=\"utf-8\"><title>Timesheet " ++
  worker_name ++ " " ++ month ++
  "</title><style>body\x7bfont-family:Arial,sans-serif;padding:20px\x7dh1\x7bmargin-bottom:0\x7dtable\x7bborder-collapse:collapse;width:100%;margin-top:16px\x7dth,td\x7bborder:1px solid #555;padding:6px;text-align:center\x7dth\x7bbackground-color:#eee\x7dtable tbody tr.day-even td\x7bbackground-color:#f7f7f7\x7dtable tbody tr.day-odd td\x7bbackground-color:#ffffff\x7dtable tbody tr.weekend td\x7bcolor:#e33d3d\x7dtable tbody tr td:first-child\x7bfont-weight:600\x7d</style></head><body>\n" ++
  "<h1>" ++ escape_html worker_name ++ "</h1><h2>Month: " ++ month ++ "</h2>\n" ++
  htmlTableBody day_groups ++
  htmlTotalLine total_minutes ++
  (if has_open_sessions then htmlOpenFootnote else "") ++
  "</body></html>"

/-- Embedding of WorkerReportData of src/reports.rs. -/
structure WorkerReportData where
  worker_name : String
  day_groups : List DayGroup
  total_minutes : Int
  has_open_sessions : Bool
deriving DecidableEq, Repr

/-- One per-worker section of the merged report: escaped heading,
shared table body, total line and footnote. -/
def htmlWorkerSection (w : WorkerReportData) : String :=
  "<h2>" ++ escape_html w.worker_name ++ "</h2>\n" ++
  htmlTableBody w.day_groups ++
  htmlTotalLine w.total_minutes ++
  (if w.has_open_sessions then htmlOpenFootnote else "")

/-- Embedding of write_merged_html_report of src/reports.rs: sections
concatenated with a page-break marker before every worker but the
first. -/
def write_merged_html_report (month : String) (worker_data : List WorkerReportData) : String :=
  "<!DOCTYPE html><html><head><meta charset=\"utf-8\"><title>All Workers Timesheet " ++
  month ++
  "</title><style>@media print \x7b .page-break \x7b page-break-before: always; \x7d \x7d body\x7bfont-family:Arial,sans-serif;padding:20px\x7dh1\x7bmargin-bottom:0\x7dh2\x7bmargin-top:40px;margin-bottom:10px;padding-top:20px;border-top:2px solid #333\x7dtable\x7bborder-collapse:collapse;width:100%;margin-top:16px\x7dth,td\x7bborder:1px solid #555;padding:6px;text-align:center\x7dth\x7bbackground-color:#eee\x7dtable tbody tr.day-even td\x7bbackground-color:#f7f7f7\x7dtable tbody tr.day-odd td\x7bbackground-color:#ffffff\x7dtable tbody tr.weekend td\x7bcolor:#e33d3d\x7dtable tbody tr td:first-child\x7bfont-weight:600\x7d</style></head><body>\n" ++
  "<h1>All Workers Timesheet</h1><h2>Month: " ++ month ++ "</h2>\n" ++
  String.join (worker_data.enum.map (fun p =>
    (if 0 < p.1 then "<div class=\"page-break\"></div>" else "") ++ htmlWorkerSection p.2)) ++
  "</body></html>"

/-- A worker of the live dashboard. -/
structure Worker where
  id : Int
  name : String
deriving DecidableEq, Repr

/-- A worker paired with the snapshot of that worker's events of the
current day, ordered by event id ascending as the store returns them. -/
abbrev LiveWorker := Worker × List TimesheetEntry

/-- In-progress test of refresh_workers of src/worker_display.rs: some
event of the day has no clock-out. -/
def isInProgress (entries : List TimesheetEntry) : Bool :=
  entries.any (fun e => e.clock_out.isNone)

/-- Sort instant of refresh_workers of src/worker_display.rs: the clock
in of the first open event when in progress, otherwise the latest
clock-out of the day when any. -/
def sortTime (entries : List TimesheetEntry) : Option Int :=
  if isInProgress entries then
    (entries.find? (fun e => e.clock_out.isNone)).map (·.clock_in)
  else
    (entries.filterMap (·.clock_out)).max?

/-- Order embedding of a boolean sort-key component. -/
def progRank (b : Bool) : Int := if b then 1 else 0

/-- The sort key of refresh_workers: the in-progress flag and the sort
instant with the epoch as fallback. -/
def liveKey (w : LiveWorker) : Int × Int :=
  (progRank (isInProgress w.2), (sortTime w.2).getD 0)

/-- The sorting relation of refresh_workers: Rust sorts ascending by
the pair of Reverse wrappers, which is descending lexicographic order
on the key pair. -/
def liveGe (a b : LiveWorker) : Prop :=
  (liveKey b).1 < (liveKey a).1 ∨
  ((liveKey a).1 = (liveKey b).1 ∧ (liveKey b).2 ≤ (liveKey a).2)

instance (a b : LiveWorker) : Decidable (liveGe a b) := by
  unfold liveGe; infer_instance

/-- The sorted worker list of refresh_workers. Rust sort_by_key is a
stable sort, and all stable sorts for one total preorder compute the
same list, so the structural insertionSort embeds it. -/
def refreshSorted (ws : List LiveWorker) : List LiveWorker :=
  List.insertionSort liveGe ws

/-- Embedding of the sort-and-partition phase of refresh_workers of
src/worker_display.rs: the sorted list split by the in-progress test
with relative order preserved, as Rust Iterator partition does. -/
def compose_live_view (ws : List LiveWorker) : List LiveWorker × List LiveWorker :=
  let sorted := refreshSorted ws
  (sorted.filter (fun w => isInProgress w.2),
   sorted.filter (fun w => !isInProgress w.2))

namespace Db

/-- The open rows of one worker: the WHERE clause worker_id equal and
clock_out null shared by the clock_out update and the current-status
query of src/db.rs. -/
def openRows (db : List TimesheetEntry) (w : Int) : List TimesheetEntry :=
  db.filter (fun e => e.worker_id == w && e.clock_out.isNone)

/-- Embedding of db::get_current_status: the open row of largest id
(order by id descending, limit one); the database list is kept in
insertion order, where ids ascend, so this is the last open row. -/
def get_current_status (db : List TimesheetEntry) (w : Int) : Option TimesheetEntry :=
  (openRows db w).getLast?

/-- Embedding of db::clock_in: insert one new open row; newId is the
rowid the database assigns. -/
def clock_in (db : List TimesheetEntry) (w : Int) (newId now : Int) : List TimesheetEntry :=
  db ++ [{ id := newId, worker_id := w, clock_in := now, clock_out := none }]

/-- Embedding of db::clock_out: the update closing every open row of
the worker. -/
def clock_out (db : List TimesheetEntry) (w : Int) (now : Int) : List TimesheetEntry :=
  db.map (fun e =>
    if e.worker_id == w && e.clock_out.isNone then { e with clock_out := some now } else e)

/-- The barcode-scan decision of setup_event_handlers of
src/event_handlers.rs: clock out when the worker has an open session,
clock in otherwise. -/
def scan_step (db : List TimesheetEntry) (w : Int) (newId now : Int) : List TimesheetEntry :=
  if (get_current_status db w).isSome then clock_out db w now else clock_in db w newId now

/-- The open-session invariant: every worker has at most one open row. -/
def InvOpen (db : List TimesheetEntry) : Prop :=
  ∀ w, (openRows db w).length ≤ 1

end Db

/-! Order lemmas on calendar dates. -/

theorem dle_mk_mk {y1 y2 : Int} {m1 d1 m2 d2 : Nat} :
    dle ⟨y1, m1, d1⟩ ⟨y2, m2, d2⟩ ↔
      (y1 < y2 ∨ (y1 = y2 ∧ (m1 < m2 ∨ (m1 = m2 ∧ d1 ≤ d2)))) := Iff.rfl

theorem dlt_mk_mk {y1 y2 : Int} {m1 d1 m2 d2 : Nat} :
    dlt ⟨y1, m1, d1⟩ ⟨y2, m2, d2⟩ ↔
      (y1 < y2 ∨ (y1 = y2 ∧ (m1 < m2 ∨ (m1 = m2 ∧ d1 < d2)))) := Iff.rfl

theorem dle_refl (a : Date) : dle a a := by
  obtain ⟨ay, am, ad⟩ := a; rw [dle_mk_mk]; omega

theorem dle_trans {a b c : Date} (h1 : dle a b) (h2 : dle b c) : dle a c := by
  obtain ⟨ay, am, ad⟩ := a; obtain ⟨by', bm, bd⟩ := b; obtain ⟨cy, cm, cd⟩ := c
  rw [dle_mk_mk] at *; omega

theorem dlt_trans {a b c : Date} (h1 : dlt a b) (h2 : dlt b c) : dlt a c := by
  obtain ⟨ay, am, ad⟩ := a; obtain ⟨by', bm, bd⟩ := b; obtain ⟨cy, cm, cd⟩ := c
  rw [dlt_mk_mk] at *; omega

instance : IsTrans Date dlt := ⟨fun _ _ _ => dlt_trans⟩

theorem dle_of_dlt {a b : Date} (h : dlt a b) : dle a b := by
  obtain ⟨ay, am, ad⟩ := a; obtain ⟨by', bm, bd⟩ := b
  rw [dlt_mk_mk] at h; rw [dle_mk_mk]; omega

theorem dle_total (a b : Date) : dle a b ∨ dle b a := by
  obtain ⟨ay, am, ad⟩ := a; obtain ⟨by', bm, bd⟩ := b
  rw [dle_mk_mk, dle_mk_mk]; omega

theorem dle_dmin_left (a b : Date) : dle (dmin a b) a := by
  unfold dmin; split
  · exact dle_refl a
  · rcases dle_total a b with h | h
    · exact absurd h (by assumption)
    · exact h

theorem dle_dmin_right (a b : Date) : dle (dmin a b) b := by
  unfold dmin; split
  · assumption
  · exact dle_refl b

theorem dle_dmin_of {t : Date} (a b : Date) (h1 : dle t a) (h2 : dle t b) :
    dle t (dmin a b) := by
  unfold dmin; split
  · exact h1
  · exact h2

/-! Calendar stepping lemmas. -/

set_option maxHeartbeats 1000000 in
theorem daysInMonth_bounds (y : Int) (m : Nat) (h1 : 1 ≤ m) (h2 : m ≤ 12) :
    1 ≤ daysInMonth y m ∧ daysInMonth y m ≤ 31 := by
  unfold daysInMonth
  repeat' split
  all_goals omega

/-- Constructor form of succDay, convenient for rewriting. -/
theorem succDay_mk (y : Int) (m d : Nat) :
    succDay ⟨y, m, d⟩ =
      if d < daysInMonth y m then ⟨y, m, d + 1⟩
      else if m < 12 then ⟨y, m + 1, 1⟩ else ⟨y + 1, 1, 1⟩ := rfl

theorem succDay_dlt (t : Date) : dlt t (succDay t) := by
  obtain ⟨ty, tm, td⟩ := t
  rw [succDay_mk]
  split
  · rw [dlt_mk_mk]; omega
  · split
    · rw [dlt_mk_mk]; omega
    · rw [dlt_mk_mk]; omega

theorem succDay_in_month {y : Int} {m j : Nat} (h : j < daysInMonth y m) :
    succDay ⟨y, m, j⟩ = ⟨y, m, j + 1⟩ := by
  rw [succDay_mk, if_pos h]

theorem succDay_end_month (y : Int) (m : Nat) (h1 : 1 ≤ m) (h2 : m ≤ 12) :
    (succDay ⟨y, m, daysInMonth y m⟩).month ≠ m := by
  rw [succDay_mk, if_neg (by omega)]
  split
  · intro hc
    have hc2 : m + 1 = m := hc
    omega
  · intro hc
    have hc2 : (1 : Nat) = m := hc
    next hlt => exact hlt (by omega)

theorem addDays_succ (n : Nat) (t : Date) :
    addDays (n + 1) t = succDay (addDays n t) := by
  induction n generalizing t with
  | zero => rfl
  | succ n ih =>
    show addDays (n + 1) (succDay t) = succDay (addDays (n + 1) t)
    rw [ih (succDay t)]
    rfl

theorem addDays_add (a b : Nat) (t : Date) :
    addDays (a + b) t = addDays b (addDays a t) := by
  induction a generalizing t with
  | zero => rw [Nat.zero_add]; rfl
  | succ a ih =>
    have harith : a + 1 + b = (a + b) + 1 := by omega
    rw [harith]
    show addDays (a + b) (succDay t) = addDays b (addDays (a + 1) t)
    rw [ih (succDay t)]
    rfl

theorem dle_addDays (n : Nat) (t : Date) : dle t (addDays n t) := by
  induction n generalizing t with
  | zero => exact dle_refl t
  | succ n ih =>
    show dle t (addDays n (succDay t))
    exact dle_trans (dle_of_dlt (succDay_dlt t)) (ih (succDay t))

theorem addDays_from_first (y : Int) (m : Nat) (j : Nat)
    (h : j + 1 ≤ daysInMonth y m) : addDays j ⟨y, m, 1⟩ = ⟨y, m, 1 + j⟩ := by
  induction j with
  | zero => rfl
  | succ j ih =>
    have h1s : succDay ⟨y, m, 1 + j⟩ = ⟨y, m, 1 + j + 1⟩ :=
      succDay_in_month (show 1 + j < daysInMonth y m by omega)
    have h2s : (⟨y, m, 1 + j + 1⟩ : Date) = ⟨y, m, 1 + (j + 1)⟩ := rfl
    rw [addDays_succ, ih (by omega), h1s, h2s]

theorem monthEnd_le_cap (y : Int) (m : Nat) (h1 : 1 ≤ m) (h2 : m ≤ 12) :
    dle (monthEnd y m) (addDays 30 ⟨y, m, 1⟩) := by
  obtain ⟨hD1, hD2⟩ := daysInMonth_bounds y m h1 h2
  have h30 : 30 = (daysInMonth y m - 1) + (31 - daysInMonth y m) := by omega
  rw [h30, addDays_add, addDays_from_first y m (daysInMonth y m - 1) (by omega)]
  have hfix : 1 + (daysInMonth y m - 1) = daysInMonth y m := by omega
  rw [hfix]
  exact dle_addDays _ _

/-! Lemmas about the day walk of build_rows. -/

theorem mkDayGroup_date (rows : List ReportRow) (t : Date) :
    (mkDayGroup rows t).date = t := rfl

theorem mkDayGroup_rows (rows : List ReportRow) (t : Date) :
    (mkDayGroup rows t).rows = dayRowsFor rows t := rfl

theorem walkDays_cons (rows : List ReportRow) (m0 : Nat) (endD : Date)
    (fuel : Nat) (c : Date) (h : dle c endD ∧ c.month = m0) :
    walkDays rows m0 endD (fuel + 1) c =
      mkDayGroup rows c :: walkDays rows m0 endD fuel (succDay c) := by
  show (if dle c endD ∧ c.month = m0 then
      mkDayGroup rows c :: walkDays rows m0 endD fuel (succDay c) else []) = _
  rw [if_pos h]

theorem walkDays_stop (rows : List ReportRow) (m0 : Nat) (endD : Date)
    (fuel : Nat) (c : Date) (h : ¬(dle c endD ∧ c.month = m0)) :
    walkDays rows m0 endD (fuel + 1) c = [] := by
  show (if dle c endD ∧ c.month = m0 then
      mkDayGroup rows c :: walkDays rows m0 endD fuel (succDay c) else []) = []
  rw [if_neg h]

theorem walkDays_month_ne (rows : List ReportRow) (m0 : Nat) (endD : Date)
    (fuel : Nat) (c : Date) (h : c.month ≠ m0) :
    walkDays rows m0 endD fuel c = [] := by
  cases fuel with
  | zero => rfl
  | succ fuel => exact walkDays_stop rows m0 endD fuel c (by rintro ⟨-, hc⟩; exact h hc)

theorem walkDays_group_rows (rows : List ReportRow) (m0 : Nat) (endD : Date) :
    ∀ fuel c, ∀ g ∈ walkDays rows m0 endD fuel c, g.rows = dayRowsFor rows g.date := by
  intro fuel
  induction fuel with
  | zero => intro c g h; simp [walkDays] at h
  | succ fuel ih =>
    intro c g h
    by_cases hc : dle c endD ∧ c.month = m0
    · rw [walkDays_cons rows m0 endD fuel c hc] at h
      rcases List.mem_cons.mp h with rfl | h2
      · rfl
      · exact ih (succDay c) g h2
    · rw [walkDays_stop rows m0 endD fuel c hc] at h
      simp at h

theorem walkDays_head_date (rows : List ReportRow) (m0 : Nat) (endD : Date)
    (fuel : Nat) (c : Date) (g : DayGroup) (gs : List DayGroup)
    (h : walkDays rows m0 endD fuel c = g :: gs) : g.date = c := by
  cases fuel with
  | zero => simp [walkDays] at h
  | succ fuel =>
    by_cases hc : dle c endD ∧ c.month = m0
    · rw [walkDays_cons rows m0 endD fuel c hc] at h
      injection h with h1 h2
      rw [← h1]
      rfl
    · rw [walkDays_stop rows m0 endD fuel c hc] at h
      simp at h

theorem walkDays_chain (rows : List ReportRow) (m0 : Nat) (endD : Date) :
    ∀ fuel c, List.Chain' (fun a b => b.date = succDay a.date)
      (walkDays rows m0 endD fuel c) := by
  intro fuel
  induction fuel with
  | zero => intro c; simp [walkDays]
  | succ fuel ih =>
    intro c
    by_cases hc : dle c endD ∧ c.month = m0
    · rw [walkDays_cons rows m0 endD fuel c hc]
      rw [List.chain'_cons']
      refine ⟨?_, ih (succDay c)⟩
      intro g hg
      cases hw : walkDays rows m0 endD fuel (succDay c) with
      | nil => rw [hw] at hg; simp at hg
      | cons g0 gs =>
        rw [hw] at hg
        simp only [List.head?_cons, Option.mem_def, Option.some.injEq] at hg
        subst hg
        rw [walkDays_head_date rows m0 endD fuel (succDay c) g0 gs hw, mkDayGroup_date]
    · rw [walkDays_stop rows m0 endD fuel c hc]
      simp

/-- Membership of a date among the walked day groups: walking from day
j of a month visits exactly the days of that month between j and the
end bound, as long as the fuel covers the remaining days. -/
theorem walkDays_mem_iff (rows : List ReportRow) (y : Int) (m : Nat) (endD : Date)
    (hm1 : 1 ≤ m) (hm2 : m ≤ 12) :
    ∀ fuel j, 1 ≤ j → j ≤ daysInMonth y m → daysInMonth y m + 1 ≤ fuel + j →
      ∀ t : Date, t ∈ (walkDays rows m endD fuel ⟨y, m, j⟩).map (fun g => g.date) ↔
        (dle ⟨y, m, j⟩ t ∧ dle t endD ∧ t.year = y ∧ t.month = m ∧
          t.day ≤ daysInMonth y m) := by
  intro fuel
  induction fuel with
  | zero => intro j h1 h2 h3; omega
  | succ fuel ih =>
    intro j hj1 hjD hfuel t
    by_cases hg : dle (⟨y, m, j⟩ : Date) endD
    · have hcond : dle (⟨y, m, j⟩ : Date) endD ∧ (⟨y, m, j⟩ : Date).month = m := ⟨hg, rfl⟩
      rw [walkDays_cons rows m endD fuel ⟨y, m, j⟩ hcond]
      by_cases hj : j < daysInMonth y m
      · rw [succDay_in_month hj]
        simp only [List.map_cons, List.mem_cons, mkDayGroup_date]
        rw [ih (j + 1) (by omega) (by omega) (by omega) t]
        constructor
        · rintro (rfl | ⟨hle, hend, hy, hmo, hd⟩)
          · exact ⟨dle_refl _, hg, rfl, rfl, show j ≤ daysInMonth y m by omega⟩
          · refine ⟨dle_trans ?_ hle, hend, hy, hmo, hd⟩
            rw [dle_mk_mk]
            omega
        · rintro ⟨hle, hend, hy, hmo, hd⟩
          obtain ⟨ty, tm, td⟩ := t
          have hy2 : ty = y := hy
          have hm2' : tm = m := hmo
          have hd2 : td ≤ daysInMonth y m := hd
          rw [dle_mk_mk] at hle
          by_cases hdj : td = j
          · left
            subst hy2; subst hm2'; subst hdj
            rfl
          · right
            refine ⟨?_, hend, hy, hmo, hd⟩
            rw [dle_mk_mk]
            omega
      · have hjD2 : j = daysInMonth y m := by omega
        have hnil : walkDays rows m endD fuel (succDay ⟨y, m, j⟩) = [] := by
          apply walkDays_month_ne
          rw [hjD2]
          exact succDay_end_month y m hm1 hm2
        rw [hnil]
        simp only [List.map_cons, List.map_nil, List.mem_singleton, mkDayGroup_date]
        constructor
        · rintro rfl
          exact ⟨dle_refl _, hg, rfl, rfl, show j ≤ daysInMonth y m by omega⟩
        · rintro ⟨hle, hend, hy, hmo, hd⟩
          obtain ⟨ty, tm, td⟩ := t
          have hy2 : ty = y := hy
          have hm2' : tm = m := hmo
          have hd2 : td ≤ daysInMonth y m := hd
          rw [dle_mk_mk] at hle
          subst hy2; subst hm2'
          have hdj : td = j := by omega
          subst hdj
          rfl
    · rw [walkDays_stop rows m endD fuel ⟨y, m, j⟩ (by rintro ⟨hc, -⟩; exact hg hc)]
      simp only [List.map_nil, List.not_mem_nil, false_iff]
      rintro ⟨hle, hend, -⟩
      exact hg (dle_trans hle hend)

theorem format_duration_zero : format_duration 0 = "00:00" := by decide

section

attribute [local irreducible] succDay daysInMonth

/-- C1: for every worker's monthly aggregation, build_rows emits
day-groups whose dates are consecutive calendar days (each the
successor of the previous), strictly ascending with no duplicates,
covering exactly the days from the first of the month up to the
selected end date clamped to the end of the month; and every walked day
with no event row yields exactly one group holding the single
placeholder row with dash labels and duration label 00:00. -/
theorem c1_build_rows_calendar_coverage (tz : Int → Int) (now : Int)
    (entries : List TimesheetEntry) (y : Int) (m : Nat) (selected : Date)
    (hm1 : 1 ≤ m) (hm2 : m ≤ 12) :
    List.Chain' (fun a b => b = succDay a)
      (((build_rows tz now entries y m selected).day_groups).map (fun g => g.date)) ∧
    List.Pairwise dlt
      (((build_rows tz now entries y m selected).day_groups).map (fun g => g.date)) ∧
    (∀ t : Date,
      t ∈ ((build_rows tz now entries y m selected).day_groups).map (fun g => g.date) ↔
        (dle ⟨y, m, 1⟩ t ∧ dle t (dmin selected (monthEnd y m)))) ∧
    (∀ g ∈ (build_rows tz now entries y m selected).day_groups,
      (∀ e ∈ entries, (to_report_row tz now e).date ≠ g.date) →
        g.rows = [{ date := g.date, clock_in := "--:--:--", clock_out := "--:--:--",
                    duration_minutes := 0, duration_label := "00:00", is_open := false }]) := by
  have hD := daysInMonth_bounds y m hm1 hm2
  obtain ⟨X, hX⟩ : ∃ X, addDays 30 (⟨y, m, 1⟩ : Date) = X := ⟨_, rfl⟩
  have hcap : dle (monthEnd y m) X := hX ▸ monthEnd_le_cap y m hm1 hm2
  have hgs : (build_rows tz now entries y m selected).day_groups =
      walkDays (entries.map (to_report_row tz now)) m (dmin selected X) 40 ⟨y, m, 1⟩ := by
    simp only [build_rows, buildDayGroups, hX]
  have hchain : List.Chain' (fun a b => b = succDay a)
      (((build_rows tz now entries y m selected).day_groups).map (fun g => g.date)) := by
    rw [hgs, List.chain'_map]
    exact walkDays_chain _ m (dmin selected X) 40 ⟨y, m, 1⟩
  refine ⟨hchain, ?_, ?_, ?_⟩
  · rw [← List.chain'_iff_pairwise]
    exact hchain.imp fun a b h => by rw [h]; exact succDay_dlt a
  · intro t
    rw [hgs, walkDays_mem_iff (entries.map (to_report_row tz now)) y m
      (dmin selected X) hm1 hm2 40 1 (le_refl 1) hD.1 (by omega) t]
    constructor
    · rintro ⟨hle, hend, hy, hmo, hd⟩
      refine ⟨hle, dle_dmin_of selected (monthEnd y m) ?_ ?_⟩
      · exact dle_trans hend (dle_dmin_left selected X)
      · obtain ⟨ty, tm, td⟩ := t
        have hy2 : ty = y := hy
        have hm2x : tm = m := hmo
        have hd2 : td ≤ daysInMonth y m := hd
        rw [show monthEnd y m = ⟨y, m, daysInMonth y m⟩ from rfl, dle_mk_mk]
        omega
    · rintro ⟨hle, hmin⟩
      have htEnd : dle t (monthEnd y m) :=
        dle_trans hmin (dle_dmin_right selected (monthEnd y m))
      obtain ⟨ty, tm, td⟩ := t
      rw [dle_mk_mk] at hle
      rw [show monthEnd y m = ⟨y, m, daysInMonth y m⟩ from rfl, dle_mk_mk] at htEnd
      have hfields : ty = y ∧ tm = m ∧ 1 ≤ td ∧ td ≤ daysInMonth y m := by omega
      refine ⟨by rw [dle_mk_mk]; omega, ?_, hfields.1, hfields.2.1, hfields.2.2.2⟩
      refine dle_dmin_of selected X ?_ ?_
      · exact dle_trans hmin (dle_dmin_left selected (monthEnd y m))
      · refine dle_trans ?_ hcap
        rw [show monthEnd y m = ⟨y, m, daysInMonth y m⟩ from rfl, dle_mk_mk]
        omega
  · intro g hg hne
    rw [hgs] at hg
    have hrows := walkDays_group_rows (entries.map (to_report_row tz now)) m
      (dmin selected X) 40 ⟨y, m, 1⟩ g hg
    have hfilter :
        (entries.map (to_report_row tz now)).filter (fun r => decide (r.date = g.date)) = [] := by
      rw [List.filter_eq_nil_iff]
      intro r hr
      rcases List.mem_map.mp hr with ⟨e, he, rfl⟩
      simpa using hne e he
    rw [hrows]
    unfold dayRowsFor
    rw [hfilter]
    simp only [List.isEmpty_nil, if_true]
    rw [show placeholderRow g.date =
      { date := g.date, clock_in := "--:--:--", clock_out := "--:--:--",
        duration_minutes := 0, duration_label := "00:00", is_open := false } by
      unfold placeholderRow
      rw [format_duration_zero]]

/-- Witness for C1 at a concrete month and day: June 2024 up to the
third, membership of June the second. -/
theorem c1_build_rows_calendar_coverage_witness :
    (⟨2024, 6, 2⟩ : Date) ∈
      ((build_rows (fun _ => 0) 0 [] 2024 6 ⟨2024, 6, 3⟩).day_groups).map
        (fun g => g.date) ↔
      (dle ⟨2024, 6, 1⟩ ⟨2024, 6, 2⟩ ∧
        dle ⟨2024, 6, 2⟩ (dmin ⟨2024, 6, 3⟩ (monthEnd 2024 6))) :=
  (c1_build_rows_calendar_coverage (fun _ => 0) 0 [] 2024 6 ⟨2024, 6, 3⟩
    (by decide) (by decide)).2.2.1 ⟨2024, 6, 2⟩

end

/-! Lemmas about durations and totals (claims C2, C3, C5). -/

theorem to_report_row_duration_def (tz : Int → Int) (now : Int) (e : TimesheetEntry) :
    (to_report_row tz now e).duration_minutes =
      if Int.tdiv (e.clock_out.getD now - e.clock_in) 60 < 0 then 0
      else Int.tdiv (e.clock_out.getD now - e.clock_in) 60 := rfl

theorem to_report_row_is_open_def (tz : Int → Int) (now : Int) (e : TimesheetEntry) :
    (to_report_row tz now e).is_open = e.clock_out.isNone := rfl

theorem to_report_row_clock_out_def (tz : Int → Int) (now : Int) (e : TimesheetEntry) :
    (to_report_row tz now e).clock_out =
      if e.clock_out.isNone then fmtHMS (localSecondOfDay tz (e.clock_out.getD now)) ++ "*"
      else fmtHMS (localSecondOfDay tz (e.clock_out.getD now)) := rfl

theorem to_report_row_duration_nonneg (tz : Int → Int) (now : Int) (e : TimesheetEntry) :
    0 ≤ (to_report_row tz now e).duration_minutes := by
  rw [to_report_row_duration_def]
  split
  · omega
  · next h => omega

theorem to_report_row_duration_clamped (tz : Int → Int) (now : Int) (e : TimesheetEntry)
    (h : Int.tdiv (e.clock_out.getD now - e.clock_in) 60 < 0) :
    (to_report_row tz now e).duration_minutes = 0 := by
  rw [to_report_row_duration_def, if_pos h]

theorem foldl_clamped_total (l : List ReportRow)
    (h : ∀ r ∈ l, 0 ≤ r.duration_minutes) :
    ∀ acc : Int,
      l.foldl (fun acc r =>
        if 0 ≤ r.duration_minutes then acc + r.duration_minutes else acc) acc =
      acc + (l.map (fun r => r.duration_minutes)).sum := by
  induction l with
  | nil => intro acc; simp
  | cons r l ih =>
    intro acc
    have hr : 0 ≤ r.duration_minutes := h r (List.mem_cons_self r l)
    simp only [List.foldl_cons, if_pos hr, List.map_cons, List.sum_cons]
    rw [ih (fun r hm => h r (List.mem_cons_of_mem _ hm)) (acc + r.duration_minutes)]
    ring

/-- C2 counterexample input: one closed one-hour event on 2024-06-05
(clock in 15:00 UTC, 11:00 local under the fixed winter offset of
Santiago), in a report for June 2024 whose selected end date is
June 3. -/
def c2Entry : TimesheetEntry :=
  { id := 1, worker_id := 7, clock_in := 1717599600, clock_out := some 1717603200 }
/-- C2 counterexample: the claim says total_minutes equals the sum of
duration_minutes over the produced rows with nonnegative duration; on
an event whose local date lies past the walked range the total counts
sixty minutes while every produced row is a zero placeholder, so the
two sides differ. -/
theorem c2_total_not_sum_of_produced_rows :
    (build_rows (fun _ => -14400) 0 [c2Entry] 2024 6 ⟨2024, 6, 3⟩).total_minutes ≠
      (((build_rows (fun _ => -14400) 0 [c2Entry] 2024 6 ⟨2024, 6, 3⟩).day_groups).map
        (fun g => ((g.rows.filter (fun r => decide (0 ≤ r.duration_minutes))).map
          (fun r => r.duration_minutes)).sum)).sum ∧
    (build_rows (fun _ => -14400) 0 [c2Entry] 2024 6 ⟨2024, 6, 3⟩).total_minutes = 60 ∧
    (((build_rows (fun _ => -14400) 0 [c2Entry] 2024 6 ⟨2024, 6, 3⟩).day_groups).map
      (fun g => ((g.rows.filter (fun r => decide (0 ≤ r.duration_minutes))).map
        (fun r => r.duration_minutes)).sum)).sum = 0 := by
  refine ⟨by decide, by decide, by decide⟩

/-- C2 amended: total_minutes equals the sum of duration_minutes over
the rows computed from all fetched events of the month, including
events whose local date falls outside the walked day range and which
therefore appear in no produced day-group; every such row's duration is
nonnegative because a negative raw duration is floored to zero, so no
row is excluded from the sum, and zero-duration rows are included. -/
theorem c2_total_minutes_is_sum_over_event_rows (tz : Int → Int) (now : Int)
    (entries : List TimesheetEntry) (y : Int) (m : Nat) (selected : Date) :
    (build_rows tz now entries y m selected).total_minutes =
      ((entries.map (to_report_row tz now)).map (fun r => r.duration_minutes)).sum ∧
    (∀ e ∈ entries, 0 ≤ (to_report_row tz now e).duration_minutes) ∧
    (∀ e ∈ entries, Int.tdiv (e.clock_out.getD now - e.clock_in) 60 < 0 →
      (to_report_row tz now e).duration_minutes = 0) := by
  refine ⟨?_, fun e _ => to_report_row_duration_nonneg tz now e,
    fun e _ h => to_report_row_duration_clamped tz now e h⟩
  have hproj : (build_rows tz now entries y m selected).total_minutes =
      buildTotalMinutes (entries.map (to_report_row tz now)) := by
    simp only [build_rows]
  rw [hproj]
  unfold buildTotalMinutes
  rw [foldl_clamped_total _ ?_ 0]
  · ring
  · intro r hr
    rcases List.mem_map.mp hr with ⟨e, -, rfl⟩
    exact to_report_row_duration_nonneg tz now e

/-- Witness entry for the amended C2: one closed one-hour event. -/
def c2wEntry : TimesheetEntry := ⟨1, 1, 0, some 3600⟩

/-- Witness for the amended C2 at a one-event list. -/
theorem c2_total_minutes_is_sum_over_event_rows_witness :
    (build_rows (fun _ => 0) 7 [c2wEntry] 2024 6 ⟨2024, 6, 3⟩).total_minutes =
      (([c2wEntry].map (to_report_row (fun _ => 0) 7)).map
        (fun r => r.duration_minutes)).sum ∧
    0 ≤ (to_report_row (fun _ => 0) 7 c2wEntry).duration_minutes :=
  ⟨(c2_total_minutes_is_sum_over_event_rows (fun _ => 0) 7 [c2wEntry]
      2024 6 ⟨2024, 6, 3⟩).1,
   (c2_total_minutes_is_sum_over_event_rows (fun _ => 0) 7 [c2wEntry]
      2024 6 ⟨2024, 6, 3⟩).2.1 c2wEntry (List.mem_singleton.mpr rfl)⟩

/-- C3 counterexample input: one open event on 2024-06-05 local. -/
def c3Entry : TimesheetEntry :=
  { id := 1, worker_id := 7, clock_in := 1717599600, clock_out := none }

/-- C3 counterexample: the claim makes has_open_sessions hold if and
only if an open row exists in the walked range; with an open event
whose local date lies past the selected end date, the flag is set while
every produced row is closed. -/
theorem c3_flag_without_open_row_in_range :
    ¬((build_rows (fun _ => -14400) 1717603200 [c3Entry] 2024 6
        ⟨2024, 6, 3⟩).has_open_sessions = true ↔
      ∃ g ∈ (build_rows (fun _ => -14400) 1717603200 [c3Entry] 2024 6
        ⟨2024, 6, 3⟩).day_groups, ∃ r ∈ g.rows, r.is_open = true) ∧
    (build_rows (fun _ => -14400) 1717603200 [c3Entry] 2024 6
      ⟨2024, 6, 3⟩).has_open_sessions = true ∧
    ((build_rows (fun _ => -14400) 1717603200 [c3Entry] 2024 6
      ⟨2024, 6, 3⟩).day_groups).all (fun g => g.rows.all (fun r => !r.is_open)) = true := by
  refine ⟨by decide, by decide, by decide⟩

/-- C3 amended: an event with no recorded clock-out always yields a row
with is_open set, a clock-out label ending in the asterisk marker, and
a duration computed against the injected aggregation instant as the
provisional end; and has_open_sessions is set if and only if at least
one fetched event of the month is open, whether or not its row falls in
the walked range. -/
theorem c3_open_rows_and_flag (tz : Int → Int) (now : Int)
    (entries : List TimesheetEntry) (y : Int) (m : Nat) (selected : Date) :
    (∀ e ∈ entries, e.clock_out = none →
      (to_report_row tz now e).is_open = true ∧
      (to_report_row tz now e).clock_out.data.getLast? = some '*' ∧
      (to_report_row tz now e).duration_minutes =
        (if Int.tdiv (now - e.clock_in) 60 < 0 then 0
         else Int.tdiv (now - e.clock_in) 60)) ∧
    ((build_rows tz now entries y m selected).has_open_sessions = true ↔
      ∃ e ∈ entries, e.clock_out = none) := by
  constructor
  · intro e _ hopen
    refine ⟨?_, ?_, ?_⟩
    · rw [to_report_row_is_open_def, hopen]
      rfl
    · rw [to_report_row_clock_out_def, hopen]
      simp only [Option.isNone_none, if_true, String.data_append]
      exact List.getLast?_concat _
    · rw [to_report_row_duration_def, hopen]
      rfl
  · have hproj : (build_rows tz now entries y m selected).has_open_sessions =
        (entries.map (to_report_row tz now)).any (fun r => r.is_open) := by
      simp only [build_rows]
    rw [hproj, List.any_eq_true]
    constructor
    · rintro ⟨r, hr, hopen⟩
      rcases List.mem_map.mp hr with ⟨e, he, rfl⟩
      rw [to_report_row_is_open_def, Option.isNone_iff_eq_none] at hopen
      exact ⟨e, he, hopen⟩
    · rintro ⟨e, he, hopen⟩
      refine ⟨to_report_row tz now e, List.mem_map.mpr ⟨e, he, rfl⟩, ?_⟩
      rw [to_report_row_is_open_def, hopen]
      rfl

/-- Witness entry for the amended C3: one open event. -/
def c3wEntry : TimesheetEntry := ⟨1, 1, 0, none⟩

/-- Witness for the amended C3 at a one-event list. -/
theorem c3_open_rows_and_flag_witness :
    ((to_report_row (fun _ => 0) 3600 c3wEntry).is_open = true ∧
      (to_report_row (fun _ => 0) 3600 c3wEntry).clock_out.data.getLast? = some '*' ∧
      (to_report_row (fun _ => 0) 3600 c3wEntry).duration_minutes =
        (if Int.tdiv ((3600 : Int) - c3wEntry.clock_in) 60 < 0 then 0
         else Int.tdiv ((3600 : Int) - c3wEntry.clock_in) 60)) ∧
    ((build_rows (fun _ => 0) 3600 [c3wEntry] 2024 6 ⟨2024, 6, 3⟩).has_open_sessions = true ↔
      ∃ e ∈ [c3wEntry], e.clock_out = none) :=
  ⟨(c3_open_rows_and_flag (fun _ => 0) 3600 [c3wEntry] 2024 6 ⟨2024, 6, 3⟩).1
      c3wEntry (List.mem_singleton.mpr rfl) rfl,
   (c3_open_rows_and_flag (fun _ => 0) 3600 [c3wEntry] 2024 6 ⟨2024, 6, 3⟩).2⟩

/-- C5 input: one open event; the aggregation substitutes the value of
the internal Utc::now() call for its missing clock-out. -/
def c5Entry : TimesheetEntry := ⟨1, 1, 0, none⟩

/-- C5: the aggregation is not a function of an injected clock:
to_report_row calls Utc::now() itself, so two runs over the same event
snapshot, month and range whose internal clock reads differ produce
different totals and duration labels. The now parameter of the
embedding stands for the value that internal clock read returns. -/
theorem c5_aggregation_reads_wall_clock :
    (build_rows (fun _ => 0) 3600 [c5Entry] 1970 1 ⟨1970, 1, 31⟩).total_minutes = 60 ∧
    (build_rows (fun _ => 0) 7200 [c5Entry] 1970 1 ⟨1970, 1, 31⟩).total_minutes = 120 ∧
    (to_report_row (fun _ => 0) 3600 c5Entry).duration_label ≠
      (to_report_row (fun _ => 0) 7200 c5Entry).duration_label := by
  refine ⟨by decide, by decide, by decide⟩

/-- C4: the head line of the per-worker HTML report interpolates the
worker name into the title without escaping: for the name consisting of
a less-than sign, the letter b and a greater-than sign, the output
starts with a title tag holding that name raw, though the h1 heading
escapes it. -/
theorem c4_title_embeds_worker_name_unescaped :
    ((write_html_report "<b>" "2024-06" [] 0 false).data.take 85 =
      ("<!DOCTYPE html><html><head><meta charset=\"utf-8\"><title>Timesheet <b> 2024-06</title>" : String).data) ∧
    escape_html "<b>" = "&lt;b&gt;" := by
  refine ⟨by decide, by decide⟩

/-! Order properties of the clock-in label comparison (claim C7). -/

theorem lexLe_total : ∀ as bs : List Char, lexLe as bs = true ∨ lexLe bs as = true := by
  intro as
  induction as with
  | nil => intro bs; left; rfl
  | cons a as ih =>
    intro bs
    cases bs with
    | nil => right; rfl
    | cons b bs =>
      by_cases hab : a = b
      · subst hab
        simp only [lexLe, if_pos rfl]
        exact ih bs
      · rcases lt_or_gt_of_ne hab with h | h
        · left
          simp only [lexLe, if_neg hab]
          exact decide_eq_true h
        · right
          simp only [lexLe, if_neg (Ne.symm hab)]
          exact decide_eq_true h

theorem lexLe_trans : ∀ as bs cs : List Char,
    lexLe as bs = true → lexLe bs cs = true → lexLe as cs = true := by
  intro as
  induction as with
  | nil => intro bs cs _ _; rfl
  | cons a as ih =>
    intro bs cs h1 h2
    cases bs with
    | nil => simp [lexLe] at h1
    | cons b bs =>
      cases cs with
      | nil => simp [lexLe] at h2
      | cons c cs =>
        by_cases hab : a = b <;> by_cases hbc : b = c
        · subst hab; subst hbc
          simp only [lexLe, if_pos rfl] at *
          exact ih bs cs h1 h2
        · subst hab
          simp only [lexLe, if_neg hbc] at h2 ⊢
          exact h2
        · subst hbc
          simp only [lexLe, if_neg hab] at h1 ⊢
          exact h1
        · simp only [lexLe, if_neg hab] at h1
          simp only [lexLe, if_neg hbc] at h2
          have hac : a < c := lt_trans (of_decide_eq_true h1) (of_decide_eq_true h2)
          have hne : a ≠ c := ne_of_lt hac
          simp only [lexLe, if_neg hne]
          exact decide_eq_true hac

instance : IsTotal ReportRow clockInLe :=
  ⟨fun a b => lexLe_total a.clock_in.data b.clock_in.data⟩

instance : IsTrans ReportRow clockInLe :=
  ⟨fun a b c => lexLe_trans a.clock_in.data b.clock_in.data c.clock_in.data⟩

instance : IsTrans DayGroup (fun g1 g2 => dlt g1.date g2.date) :=
  ⟨fun _ _ _ h1 h2 => dlt_trans h1 h2⟩

section

attribute [local irreducible] succDay daysInMonth

/-- C7: in every aggregation output, the rows of every day-group are
pairwise in ascending clock-in label order (groups with events are
sorted by the stable sort of build_rows; placeholder groups hold a
single row), and the day-groups themselves are pairwise in ascending
calendar-date order. -/
theorem c7_rows_sorted_days_ascending (tz : Int → Int) (now : Int)
    (entries : List TimesheetEntry) (y : Int) (m : Nat) (selected : Date) :
    (∀ g ∈ (build_rows tz now entries y m selected).day_groups,
      List.Pairwise clockInLe g.rows) ∧
    List.Pairwise (fun g1 g2 => dlt g1.date g2.date)
      (build_rows tz now entries y m selected).day_groups := by
  have hgs : (build_rows tz now entries y m selected).day_groups =
      walkDays (entries.map (to_report_row tz now)) m
        (dmin selected (addDays 30 ⟨y, m, 1⟩)) 40 ⟨y, m, 1⟩ := by
    simp only [build_rows, buildDayGroups]
  constructor
  · intro g hg
    rw [hgs] at hg
    have hrows := walkDays_group_rows (entries.map (to_report_row tz now)) m
      (dmin selected (addDays 30 ⟨y, m, 1⟩)) 40 ⟨y, m, 1⟩ g hg
    rw [hrows]
    unfold dayRowsFor
    dsimp only
    split
    · exact List.pairwise_singleton _ _
    · exact List.sorted_insertionSort clockInLe _
  · have hchain : List.Chain' (fun a b => b.date = succDay a.date)
        ((build_rows tz now entries y m selected).day_groups) := by
      rw [hgs]
      exact walkDays_chain _ m (dmin selected (addDays 30 ⟨y, m, 1⟩)) 40 ⟨y, m, 1⟩
    have hchain2 : List.Chain' (fun g1 g2 => dlt g1.date g2.date)
        ((build_rows tz now entries y m selected).day_groups) :=
      hchain.imp fun a b h => by rw [h]; exact succDay_dlt a.date
    rw [← List.chain'_iff_pairwise]
    exact hchain2

/-- Witness for C7 at a concrete empty-entry June report. -/
theorem c7_rows_sorted_days_ascending_witness :
    List.Pairwise (fun g1 g2 => dlt g1.date g2.date)
      (build_rows (fun _ => 0) 0 [] 2024 6 ⟨2024, 6, 3⟩).day_groups :=
  (c7_rows_sorted_days_ascending (fun _ => 0) 0 [] 2024 6 ⟨2024, 6, 3⟩).2

end

/-! The live-status composer (claim C6). -/

instance : IsTotal LiveWorker liveGe := by
  constructor
  intro a b
  unfold liveGe
  omega

instance : IsTrans LiveWorker liveGe := by
  constructor
  intro a b c h1 h2
  unfold liveGe at *
  omega

/-- Scenario worker of C6: worker A with an open session begun at nine
in the morning (instant 32400 of the day). -/
def liveWorkerA : LiveWorker := (⟨1, "A"⟩, [⟨1, 1, 32400, none⟩])

/-- Scenario worker of C6: worker B clocked out at ten in the morning
(instant 36000 of the day). -/
def liveWorkerB : LiveWorker := (⟨2, "B"⟩, [⟨2, 2, 28800, some 36000⟩])

/-- C6: the live-status composer emits the in-progress group followed
by the rest, each group preserving the order of one stable sort by the
descending key pair of the in-progress flag and the most relevant
instant (open clock-in when in progress, else latest clock-out of the
day, else the epoch); the two groups are the in-progress workers and
the others, their concatenation is a permutation of the input, and the
concrete scenario of an open worker A and a clocked-out worker B yields
the two singleton groups. -/
theorem c6_live_view_order (ws : List LiveWorker) :
    (∀ p ∈ (compose_live_view ws).1, isInProgress p.2 = true) ∧
    (∀ p ∈ (compose_live_view ws).2, isInProgress p.2 = false) ∧
    List.Pairwise liveGe ((compose_live_view ws).1 ++ (compose_live_view ws).2) ∧
    ((compose_live_view ws).1 ++ (compose_live_view ws).2).Perm ws ∧
    compose_live_view [liveWorkerA, liveWorkerB] = ([liveWorkerA], [liveWorkerB]) := by
  have hsorted : List.Pairwise liveGe (refreshSorted ws) :=
    List.sorted_insertionSort liveGe ws
  refine ⟨?_, ?_, ?_, ?_, by decide⟩
  · intro p hp
    exact (List.mem_filter.mp hp).2
  · intro p hp
    have := (List.mem_filter.mp hp).2
    simpa using this
  · rw [List.pairwise_append]
    refine ⟨hsorted.sublist (List.filter_sublist _),
      hsorted.sublist (List.filter_sublist _), ?_⟩
    intro a ha b hb
    have hain : isInProgress a.2 = true := (List.mem_filter.mp ha).2
    have hbin : isInProgress b.2 = false := by
      have := (List.mem_filter.mp hb).2
      simpa using this
    left
    simp only [liveKey, progRank, hain, hbin]
    norm_num
  · exact (List.filter_append_perm _ (refreshSorted ws)).trans
      (List.perm_insertionSort liveGe ws)

/-- Witness for C6 at the scenario input. -/
theorem c6_live_view_order_witness :
    (∀ p ∈ (compose_live_view [liveWorkerA, liveWorkerB]).1, isInProgress p.2 = true) ∧
    compose_live_view [liveWorkerA, liveWorkerB] = ([liveWorkerA], [liveWorkerB]) :=
  ⟨(c6_live_view_order [liveWorkerA, liveWorkerB]).1,
   (c6_live_view_order [liveWorkerA, liveWorkerB]).2.2.2.2⟩

/-! The clock-in and clock-out state machine (claim C8). -/

theorem clock_out_closes_all (db : List TimesheetEntry) (w : Int) (now : Int) :
    ∀ e ∈ Db.clock_out db w now, ¬(e.worker_id = w ∧ e.clock_out = none) := by
  intro e he
  rcases List.mem_map.mp he with ⟨x, -, rfl⟩
  split
  · rintro ⟨-, hnone⟩
    simp at hnone
  · next hcond =>
    rintro ⟨hw, hnone⟩
    exact hcond (by simp [hw, hnone])

theorem openRows_clock_out_self (db : List TimesheetEntry) (w : Int) (now : Int) :
    Db.openRows (Db.clock_out db w now) w = [] := by
  unfold Db.openRows
  rw [List.filter_eq_nil_iff]
  intro e he
  have hclosed := clock_out_closes_all db w now e he
  simp only [Bool.and_eq_true, beq_iff_eq, Option.isNone_iff_eq_none]
  rintro ⟨hw, hnone⟩
  exact hclosed ⟨hw, hnone⟩

theorem openRows_clock_out_other (db : List TimesheetEntry) (w w' : Int) (now : Int)
    (hne : w' ≠ w) :
    Db.openRows (Db.clock_out db w now) w' = Db.openRows db w' := by
  unfold Db.openRows Db.clock_out
  induction db with
  | nil => rfl
  | cons e db ih =>
    simp only [List.map_cons, List.filter_cons]
    by_cases hcond : (e.worker_id == w && e.clock_out.isNone) = true
    · rw [if_pos hcond]
      have hw : e.worker_id = w := by
        simp only [Bool.and_eq_true, beq_iff_eq] at hcond
        exact hcond.1
      have h1 : (({ e with clock_out := some now } : TimesheetEntry).worker_id == w') = false := by
        simp only [beq_eq_false_iff_ne]
        show e.worker_id ≠ w'
        rw [hw]
        exact Ne.symm hne
      have h2 : (e.worker_id == w') = false := by
        simp only [beq_eq_false_iff_ne]
        rw [hw]
        exact Ne.symm hne
      simp only [h1, h2, Bool.false_and, Bool.false_eq_true, if_false]
      exact ih
    · rw [if_neg hcond]
      by_cases hp : (e.worker_id == w' && e.clock_out.isNone) = true
      · rw [if_pos hp, if_pos hp, ih]
      · rw [if_neg hp, if_neg hp, ih]

theorem openRows_append (db1 db2 : List TimesheetEntry) (w : Int) :
    Db.openRows (db1 ++ db2) w = Db.openRows db1 w ++ Db.openRows db2 w :=
  List.filter_append _ _

theorem getLast?_none_iff {α : Type} (l : List α) : l.getLast? = none ↔ l = [] := by
  cases l with
  | nil => simp
  | cons a l => simp [List.getLast?_eq_getLast]

/-- C8: from a state where every worker has at most one open row, one
barcode-scan step (clock out when an open session exists, clock in
otherwise) preserves that invariant; moreover the clock-out update
closes every open row of the worker. -/
theorem c8_scan_step_preserves_single_open_session (db : List TimesheetEntry)
    (w newId now : Int) (hinv : Db.InvOpen db) :
    Db.InvOpen (Db.scan_step db w newId now) ∧
    (∀ e ∈ Db.clock_out db w now, ¬(e.worker_id = w ∧ e.clock_out = none)) := by
  refine ⟨?_, clock_out_closes_all db w now⟩
  unfold Db.scan_step
  split
  · intro w'
    by_cases hw : w' = w
    · subst hw
      rw [openRows_clock_out_self]
      simp
    · rw [openRows_clock_out_other db w w' now hw]
      exact hinv w'
  · next hnone =>
    have hempty : Db.openRows db w = [] := by
      rw [← getLast?_none_iff]
      unfold Db.get_current_status at hnone
      simpa using hnone
    intro w'
    unfold Db.clock_in
    rw [openRows_append]
    by_cases hw : w' = w
    · subst hw
      rw [hempty]
      simp [Db.openRows]
    · have hnew : Db.openRows [⟨newId, w, now, none⟩] w' = [] := by
        simp only [Db.openRows, List.filter_cons, List.filter_nil]
        rw [if_neg]
        simp only [Bool.and_eq_true, beq_iff_eq]
        rintro ⟨hc, -⟩
        exact hw hc.symm
      rw [hnew, List.append_nil]
      exact hinv w'

/-- Witness for C8: a scan for worker zero on a database holding one
open row for that worker clocks the worker out and the invariant holds
afterwards. -/
theorem c8_scan_step_preserves_single_open_session_witness :
    Db.InvOpen [⟨1, 0, 100, none⟩] ∧
    Db.InvOpen (Db.scan_step [⟨1, 0, 100, none⟩] 0 2 200) := by
  have hinv : Db.InvOpen [⟨1, 0, 100, none⟩] := by
    intro w
    calc (Db.openRows [⟨1, 0, 100, none⟩] w).length
        ≤ [(⟨1, 0, 100, none⟩ : TimesheetEntry)].length := List.length_filter_le _ _
      _ ≤ 1 := by simp
  exact ⟨hinv,
    (c8_scan_step_preserves_single_open_session [⟨1, 0, 100, none⟩] 0 2 200 hinv).1⟩

/-! Filename sanitization (claim C9). -/

theorem sanitizeChar_alnum (c : Char) (h : isAsciiAlphanumeric c = true) :
    sanitizeChar c = c := by
  unfold sanitizeChar
  rw [if_pos h]

theorem sanitizeChar_other (c : Char) (h : isAsciiAlphanumeric c = false) :
    sanitizeChar c = '_' := by
  unfold sanitizeChar
  rw [if_neg (by simp [h])]
  split
  · rfl
  · rfl

/-- C9: sanitization maps every character one to one, ASCII
alphanumerics unchanged and everything else to the underscore, so a
nonempty name keeps its character count and draws all output characters
from the alphanumerics plus underscore; the empty name falls back to
the fixed placeholder, and the accented sample name comes out in that
alphabet. -/
theorem c9_sanitize_filename_shape (s : String) :
    (s ≠ "" →
      ((sanitize_filename s).data.length = s.data.length ∧
       ∀ c ∈ (sanitize_filename s).data, isAsciiAlphanumeric c = true ∨ c = '_')) ∧
    sanitize_filename "" = "worker" ∧
    (∀ c : Char, (isAsciiAlphanumeric c = true → sanitizeChar c = c) ∧
      (isAsciiAlphanumeric c = false → sanitizeChar c = '_')) ∧
    ((sanitize_filename "José  Pérez!").data.all
      (fun c => isAsciiAlphanumeric c || c == '_')) = true := by
  refine ⟨?_, rfl, fun c => ⟨sanitizeChar_alnum c, sanitizeChar_other c⟩, by decide⟩
  intro hs
  have hd : s.data ≠ [] := by
    intro h
    apply hs
    cases s with
    | mk data =>
      cases h
      rfl
  have hmk : sanitize_filename s = String.mk (s.data.map sanitizeChar) := by
    unfold sanitize_filename
    rw [if_neg]
    simp [List.isEmpty_iff, hd]
  rw [hmk]
  constructor
  · exact List.length_map _ _
  · intro c hc
    rcases List.mem_map.mp hc with ⟨a, -, rfl⟩
    by_cases ha : isAsciiAlphanumeric a = true
    · left
      rw [sanitizeChar_alnum a ha]
      exact ha
    · right
      exact sanitizeChar_other a (by simpa using ha)

/-- Witness for C9 at a short name with one invalid character. -/
theorem c9_sanitize_filename_shape_witness :
    ("a!" : String) ≠ "" ∧
    (sanitize_filename "a!").data.length = ("a!" : String).data.length :=
  ⟨by decide, ((c9_sanitize_filename_shape "a!").1 (by decide)).1⟩

/-! Escaping lemmas (claims C4, C10). -/

theorem unescapeHtml_cons_ne (c : Char) (hc : c ≠ '&') (l : List Char) :
    unescapeHtml (c :: l) = c :: unescapeHtml l := by
  conv_lhs => rw [unescapeHtml]
  rw [if_neg hc]

theorem unescapeHtml_amp (r : List Char) :
    unescapeHtml ('&' :: 'a' :: 'm' :: 'p' :: ';' :: r) = '&' :: unescapeHtml r := by
  conv_lhs => rw [unescapeHtml]
  simp +decide [List.take_succ_cons, List.take_zero, List.drop_succ_cons, List.drop_zero]

theorem unescapeHtml_lt (r : List Char) :
    unescapeHtml ('&' :: 'l' :: 't' :: ';' :: r) = '<' :: unescapeHtml r := by
  conv_lhs => rw [unescapeHtml]
  simp +decide [List.take_succ_cons, List.take_zero, List.drop_succ_cons, List.drop_zero]

theorem unescapeHtml_gt (r : List Char) :
    unescapeHtml ('&' :: 'g' :: 't' :: ';' :: r) = '>' :: unescapeHtml r := by
  conv_lhs => rw [unescapeHtml]
  simp +decide [List.take_succ_cons, List.take_zero, List.drop_succ_cons, List.drop_zero]

theorem unescapeHtml_quot (r : List Char) :
    unescapeHtml ('&' :: 'q' :: 'u' :: 'o' :: 't' :: ';' :: r) =
      Char.ofNat 34 :: unescapeHtml r := by
  conv_lhs => rw [unescapeHtml]
  simp +decide [List.take_succ_cons, List.take_zero, List.drop_succ_cons, List.drop_zero]

theorem unescapeHtml_apos (r : List Char) :
    unescapeHtml ('&' :: '#' :: '3' :: '9' :: ';' :: r) =
      Char.ofNat 39 :: unescapeHtml r := by
  conv_lhs => rw [unescapeHtml]
  simp +decide [List.take_succ_cons, List.take_zero, List.drop_succ_cons, List.drop_zero]

theorem ampOkList_cons_ne (c : Char) (hc : c ≠ '&') (l : List Char) :
    ampOkList (c :: l) = ampOkList l := by
  conv_lhs => rw [ampOkList]
  rw [if_neg hc]

theorem ampOkList_amp (r : List Char) :
    ampOkList ('&' :: 'a' :: 'm' :: 'p' :: ';' :: r) = ampOkList r := by
  conv_lhs => rw [ampOkList]
  simp +decide [List.take_succ_cons, List.take_zero, List.drop_succ_cons, List.drop_zero]

theorem ampOkList_lt (r : List Char) :
    ampOkList ('&' :: 'l' :: 't' :: ';' :: r) = ampOkList r := by
  conv_lhs => rw [ampOkList]
  simp +decide [List.take_succ_cons, List.take_zero, List.drop_succ_cons, List.drop_zero]

theorem ampOkList_gt (r : List Char) :
    ampOkList ('&' :: 'g' :: 't' :: ';' :: r) = ampOkList r := by
  conv_lhs => rw [ampOkList]
  simp +decide [List.take_succ_cons, List.take_zero, List.drop_succ_cons, List.drop_zero]

theorem ampOkList_quot (r : List Char) :
    ampOkList ('&' :: 'q' :: 'u' :: 'o' :: 't' :: ';' :: r) = ampOkList r := by
  conv_lhs => rw [ampOkList]
  simp +decide [List.take_succ_cons, List.take_zero, List.drop_succ_cons, List.drop_zero]

theorem ampOkList_apos (r : List Char) :
    ampOkList ('&' :: '#' :: '3' :: '9' :: ';' :: r) = ampOkList r := by
  conv_lhs => rw [ampOkList]
  simp +decide [List.take_succ_cons, List.take_zero, List.drop_succ_cons, List.drop_zero]

theorem escChar_generic (c : Char) (h1 : c ≠ '&') (h2 : c ≠ '<') (h3 : c ≠ '>')
    (h4 : c ≠ Char.ofNat 34) (h5 : c ≠ Char.ofNat 39) : escChar c = [c] := by
  unfold escChar
  rw [if_neg h1, if_neg h2, if_neg h3, if_neg h4, if_neg h5]

theorem unescape_escList (l : List Char) : unescapeHtml (escList l) = l := by
  induction l with
  | nil =>
    show unescapeHtml [] = []
    rw [unescapeHtml]
  | cons c l ih =>
    show unescapeHtml (escChar c ++ escList l) = c :: l
    by_cases h1 : c = '&'
    · subst h1
      rw [show escChar '&' = ['&', 'a', 'm', 'p', ';'] from rfl]
      simp only [List.cons_append, List.nil_append]
      rw [unescapeHtml_amp, ih]
    · by_cases h2 : c = '<'
      · subst h2
        rw [show escChar '<' = ['&', 'l', 't', ';'] from rfl]
        simp only [List.cons_append, List.nil_append]
        rw [unescapeHtml_lt, ih]
      · by_cases h3 : c = '>'
        · subst h3
          rw [show escChar '>' = ['&', 'g', 't', ';'] from rfl]
          simp only [List.cons_append, List.nil_append]
          rw [unescapeHtml_gt, ih]
        · by_cases h4 : c = Char.ofNat 34
          · subst h4
            rw [show escChar (Char.ofNat 34) = ['&', 'q', 'u', 'o', 't', ';'] from rfl]
            simp only [List.cons_append, List.nil_append]
            rw [unescapeHtml_quot, ih]
          · by_cases h5 : c = Char.ofNat 39
            · subst h5
              rw [show escChar (Char.ofNat 39) = ['&', '#', '3', '9', ';'] from rfl]
              simp only [List.cons_append, List.nil_append]
              rw [unescapeHtml_apos, ih]
            · rw [escChar_generic c h1 h2 h3 h4 h5]
              simp only [List.cons_append, List.nil_append]
              rw [unescapeHtml_cons_ne c h1, ih]

theorem escList_no_raw (l : List Char) :
    ∀ c ∈ escList l, c ≠ '<' ∧ c ≠ '>' ∧ c ≠ Char.ofNat 34 ∧ c ≠ Char.ofNat 39 := by
  induction l with
  | nil => intro c hc; simp [escList] at hc
  | cons a l ih =>
    intro c hc
    rw [show escList (a :: l) = escChar a ++ escList l from rfl] at hc
    rcases List.mem_append.mp hc with h | h
    · by_cases h1 : a = '&'
      · subst h1
        rw [show escChar '&' = ['&', 'a', 'm', 'p', ';'] from rfl] at h
        fin_cases h <;> decide
      · by_cases h2 : a = '<'
        · subst h2
          rw [show escChar '<' = ['&', 'l', 't', ';'] from rfl] at h
          fin_cases h <;> decide
        · by_cases h3 : a = '>'
          · subst h3
            rw [show escChar '>' = ['&', 'g', 't', ';'] from rfl] at h
            fin_cases h <;> decide
          · by_cases h4 : a = Char.ofNat 34
            · subst h4
              rw [show escChar (Char.ofNat 34) = ['&', 'q', 'u', 'o', 't', ';'] from rfl] at h
              fin_cases h <;> decide
            · by_cases h5 : a = Char.ofNat 39
              · subst h5
                rw [show escChar (Char.ofNat 39) = ['&', '#', '3', '9', ';'] from rfl] at h
                fin_cases h <;> decide
              · rw [escChar_generic a h1 h2 h3 h4 h5] at h
                rcases List.mem_singleton.mp h with rfl
                exact ⟨h2, h3, h4, h5⟩
    · exact ih c h

theorem escList_ampOk (l : List Char) : ampOkList (escList l) = true := by
  induction l with
  | nil =>
    show ampOkList [] = true
    rw [ampOkList]
  | cons c l ih =>
    show ampOkList (escChar c ++ escList l) = true
    by_cases h1 : c = '&'
    · subst h1
      rw [show escChar '&' = ['&', 'a', 'm', 'p', ';'] from rfl]
      simp only [List.cons_append, List.nil_append]
      rw [ampOkList_amp, ih]
    · by_cases h2 : c = '<'
      · subst h2
        rw [show escChar '<' = ['&', 'l', 't', ';'] from rfl]
        simp only [List.cons_append, List.nil_append]
        rw [ampOkList_lt, ih]
      · by_cases h3 : c = '>'
        · subst h3
          rw [show escChar '>' = ['&', 'g', 't', ';'] from rfl]
          simp only [List.cons_append, List.nil_append]
          rw [ampOkList_gt, ih]
        · by_cases h4 : c = Char.ofNat 34
          · subst h4
            rw [show escChar (Char.ofNat 34) = ['&', 'q', 'u', 'o', 't', ';'] from rfl]
            simp only [List.cons_append, List.nil_append]
            rw [ampOkList_quot, ih]
          · by_cases h5 : c = Char.ofNat 39
            · subst h5
              rw [show escChar (Char.ofNat 39) = ['&', '#', '3', '9', ';'] from rfl]
              simp only [List.cons_append, List.nil_append]
              rw [ampOkList_apos, ih]
            · rw [escChar_generic c h1 h2 h3 h4 h5]
              simp only [List.cons_append, List.nil_append]
              rw [ampOkList_cons_ne c h1, ih]

/-- C10: escaping leaves no raw left angle, right angle, double quote
or apostrophe in the output, every ampersand of the output begins one
of the five entities, reading the entities back recovers the input
exactly, and the escape function is injective. -/
theorem c10_escape_html_sound (s : String) :
    unescapeHtml (escape_html s).data = s.data ∧
    (∀ c ∈ (escape_html s).data,
      c ≠ '<' ∧ c ≠ '>' ∧ c ≠ Char.ofNat 34 ∧ c ≠ Char.ofNat 39) ∧
    ampOkList (escape_html s).data = true ∧
    (∀ t : String, escape_html s = escape_html t → s = t) := by
  refine ⟨unescape_escList s.data, escList_no_raw s.data, escList_ampOk s.data, ?_⟩
  intro t h
  have hdata : escList s.data = escList t.data := congrArg String.data h
  have hs := unescape_escList s.data
  rw [hdata, unescape_escList t.data] at hs
  cases s with
  | mk sd =>
    cases t with
    | mk td =>
      cases hs
      rfl

/-- Witness for C10 at a name holding an ampersand. -/
theorem c10_escape_html_sound_witness :
    unescapeHtml (escape_html "a&b").data = ("a&b" : String).data ∧
    escape_html "a&b" = escape_html "a&b" → ("a&b" : String) = "a&b" :=
  fun h => (c10_escape_html_sound "a&b").2.2.2 "a&b" h.2
